import Mathlib

/-!
Verification of the resilient data-acquisition core of the `nseapi`
repository (`src/nseapi/__init__.py`): the retrying fetch client
(`fetch_data_from_nse`), the archive retrieval pipeline (`get_bhavcopy`),
the date-range chunker (`_split_date_range`) and the chunked historical
query merge (`get_historical_equity_data`, `get_historical_index_data`).

Dates are embedded as integers (day numbers); `timedelta(days = k)` is
addition of `k`; comparison of `datetime.date` values is comparison of the
day numbers.  Machine behaviour that the claims quantify over (the network
transport, the payload of a download) is a parameter of the embedded
function, so every theorem quantifies over it explicitly.
-/

namespace NseApi

/-! ## Date-Range Chunker (`_split_date_range`, lines 1034-1070)

The Python `while` loop is embedded with explicit fuel; one unit of fuel is
one loop iteration.  `none` means the fuel was exhausted before the loop
condition became false.

```
while current_start <= to_date:
    current_end = current_start + timedelta(days=max_chunk_size - 1)
    if current_end > to_date:
        current_end = to_date
    chunks.append((current_start, current_end))
    current_start = current_end + timedelta(days=1)
```
-/

def splitLoop (to_date max_chunk_size : Int) :
    Nat → Int → List (Int × Int) → Option (List (Int × Int))
  | 0, _, _ => none
  | fuel + 1, current_start, chunks =>
    if current_start ≤ to_date then
      let pre_end := current_start + (max_chunk_size - 1)
      let current_end := if pre_end > to_date then to_date else pre_end
      splitLoop to_date max_chunk_size fuel (current_end + 1)
        (chunks ++ [(current_start, current_end)])
    else
      some chunks

/-- `_split_date_range` (lines 1034-1070).  The fuel
`(to_date - from_date).toNat + 2` bounds the number of loop iterations
(including the final failing check) whenever every iteration advances
`current_start` by at least one day, so `.ok none` is reachable exactly
when the Python loop runs longer than that linear bound. -/
def _split_date_range (from_date to_date : Int) (max_chunk_size : Int) :
    Except String (Option (List (Int × Int))) :=
  if from_date > to_date then
    Except.error "from_date cannot be greater than to_date"
  else
    Except.ok (splitLoop to_date max_chunk_size
      ((to_date - from_date).toNat + 2) from_date [])

/-! ## Resilient Fetch Client (`fetch_data_from_nse`, lines 56-101)

The transport is a function from the attempt index (0-based) to that
attempt's outcome: `.ok j` models a 2xx response with parsed JSON `j`
(`raise_for_status` passing and `response.json()` succeeding), `.error e`
models a raised `requests.RequestException` (from the cookie refresh or
the GET itself, both inside the `try`).  The trace records how many
attempts were issued and how many times `sleep(delay)` ran.  `result`
is `.ok none` when the function returns `None` (the `for` loop over
`range(retries)` finishing without a body ever running), `.ok (some j)`
when it returns JSON, `.error e` when it re-raises the last error. -/

structure FetchTrace (ε α : Type) where
  attempts : Nat
  sleeps : Nat
  result : Except ε (Option α)
  deriving Repr

/-- The loop from `for attempt in range(retries)`, with
`remaining = retries - attempt` (so `remaining = 1` is the final attempt,
where `attempt < retries - 1` is false and the error is re-raised). -/
def fetchFrom (transport : Nat → Except ε α) : Nat → Nat → FetchTrace ε α
  | 0, _ => ⟨0, 0, Except.ok none⟩
  | remaining + 1, attempt =>
    match transport attempt with
    | Except.ok j => ⟨1, 0, Except.ok (some j)⟩
    | Except.error e =>
      if remaining = 0 then
        ⟨1, 0, Except.error e⟩
      else
        let rest := fetchFrom transport remaining (attempt + 1)
        ⟨rest.attempts + 1, rest.sleeps + 1, rest.result⟩

def fetch_data_from_nse (transport : Nat → Except ε α) (retries : Nat) :
    FetchTrace ε α :=
  fetchFrom transport retries 0

/-! ## Archive Retrieval Pipeline (`get_bhavcopy`, lines 118-238)

Dates carry year/month/day; the `strftime` format codes used by the URL
templates are reproduced below (`%Y` `%m` `%d` `%y` `%b`; the source
applies `.upper()` to `%b`, so the upper-cased month table is used where
the source writes `.upper()`). -/

structure PyDate where
  year : Nat
  month : Nat
  day : Nat
  deriving Repr, DecidableEq

def fmt2 (n : Nat) : String :=
  if n < 10 then "0" ++ toString n else toString n

def fmt4 (n : Nat) : String :=
  if n < 10 then "000" ++ toString n
  else if n < 100 then "00" ++ toString n
  else if n < 1000 then "0" ++ toString n
  else toString n

/-- `date.strftime('%b').upper()` for months 1-12 (C locale). -/
def monthAbbrevUpper : Nat → String
  | 1 => "JAN" | 2 => "FEB" | 3 => "MAR" | 4 => "APR" | 5 => "MAY" | 6 => "JUN"
  | 7 => "JUL" | 8 => "AUG" | 9 => "SEP" | 10 => "OCT" | 11 => "NOV" | 12 => "DEC"
  | _ => ""

/-- `date.strftime('%Y%m%d')`. -/
def fmtYYYYMMDD (d : PyDate) : String := fmt4 d.year ++ fmt2 d.month ++ fmt2 d.day

/-- `date.strftime('%d%m%Y')`. -/
def fmtDDMMYYYY (d : PyDate) : String := fmt2 d.day ++ fmt2 d.month ++ fmt4 d.year

/-- `date.strftime('%d%m%y')`. -/
def fmtDDMMYY (d : PyDate) : String := fmt2 d.day ++ fmt2 d.month ++ fmt2 (d.year % 100)

/-- `date.strftime('%d%b%Y').upper()`. -/
def fmtDDMonYYYYUpper (d : PyDate) : String :=
  fmt2 d.day ++ monthAbbrevUpper d.month ++ fmt4 d.year

/-- Post-cutoff equity template (line 149-150, `date.year >= 2024`). -/
def equityUrlPost2024 (d : PyDate) : String :=
  "https://nsearchives.nseindia.com/content/cm/BhavCopy_NSE_CM_0_0_0_"
    ++ fmtYYYYMMDD d ++ "_F_0000.csv.zip"

/-- Legacy equity template (lines 152-154, `date.year < 2024`). -/
def equityUrlLegacy (d : PyDate) : String :=
  "https://nsearchives.nseindia.com/content/historical/EQUITIES/"
    ++ fmt4 d.year ++ "/" ++ monthAbbrevUpper d.month ++ "/cm"
    ++ fmtDDMonYYYYUpper d ++ "bhav.csv.zip"

/-- The URL-selection chain of `get_bhavcopy` (lines 147-170); `.error` is
the `ValueError` raised for an unknown `bhavcopy_type`. -/
def bhavcopy_url (bhavcopy_type : String) (d : PyDate) : Except String String :=
  if bhavcopy_type = "equity" then
    if d.year ≥ 2024 then Except.ok (equityUrlPost2024 d)
    else Except.ok (equityUrlLegacy d)
  else if bhavcopy_type = "delivery" then
    Except.ok ("https://nsearchives.nseindia.com/products/content/sec_bhavdata_full_"
      ++ fmtDDMMYYYY d ++ ".csv")
  else if bhavcopy_type = "indices" then
    Except.ok ("https://www1.nseindia.com/content/indices/ind_close_all_"
      ++ fmtDDMMYYYY d ++ ".csv")
  else if bhavcopy_type = "fno" then
    Except.ok ("https://nsearchives.nseindia.com/content/fo/BhavCopy_NSE_FO_0_0_0_"
      ++ fmtYYYYMMDD d ++ "_F_0000.csv.zip")
  else if bhavcopy_type = "priceband" then
    Except.ok ("https://nsearchives.nseindia.com/content/equities/sec_list_"
      ++ fmtDDMMYYYY d ++ ".csv")
  else if bhavcopy_type = "pr" then
    Except.ok ("https://nsearchives.nseindia.com/archives/equities/bhavcopy/pr/PR"
      ++ fmtDDMMYY d ++ ".zip")
  else if bhavcopy_type = "cm_mii" then
    Except.ok ("https://nsearchives.nseindia.com/content/cm/NSE_CM_security_"
      ++ fmtDDMMYYYY d ++ ".csv.gz")
  else
    Except.error ("Invalid bhavcopy_type: " ++ bhavcopy_type)

/-- The downloaded body, classified by what the archive codecs do with it:
a valid ZIP with its `namelist()`, a valid GZIP member, or bytes that are
neither (for which `zipfile.ZipFile` raises `BadZipFile` and `gzip` raises
`BadGzipFile`). -/
inductive Payload
  | zipData (entries : List String)
  | gzData
  | otherBytes
  deriving Repr, DecidableEq

/-- The local directory as the set of existing file paths. -/
def fsWrite (fs : List String) (p : String) : List String :=
  if p ∈ fs then fs else fs ++ [p]

def fsErase (fs : List String) (p : String) : List String :=
  fs.filter (fun q => q != p)

/-- `os.rename`: raises `FileNotFoundError` (an `OSError`) when the source
does not exist; overwrites the destination otherwise. -/
def fsRename (fs : List String) (src dst : String) : Except String (List String) :=
  if src ∈ fs then Except.ok (fsWrite (fsErase fs src) dst)
  else Except.error ("No such file or directory: " ++ src)

/-- `os.remove`: raises `FileNotFoundError` (an `OSError`) when the path
does not exist. -/
def fsRemove (fs : List String) (p : String) : Except String (List String) :=
  if p ∈ fs then Except.ok (fsErase fs p)
  else Except.error ("No such file or directory: " ++ p)

/-- The exceptions the `try` block of `get_bhavcopy` can raise that its
`except` clauses (lines 232-238) catch. -/
inductive TryExc
  | requestException (m : String)
  | badZipFile (m : String)
  | badGzipFile (m : String)
  | osError (m : String)
  deriving Repr, DecidableEq

/-- The caller-visible errors of `get_bhavcopy`.  `indexError` is
`namelist()[0]` on an empty archive (line 189), which none of the
`except` clauses catch. -/
inductive BhavError
  | valueError (m : String)
  | fileNotFoundError (m : String)
  | runtimeError (m : String)
  | indexError (m : String)
  deriving Repr, DecidableEq

/-- The Python exception class of a raised error. -/
inductive ExcKind
  | valueError
  | fileNotFoundError
  | runtimeError
  | indexError
  deriving Repr, DecidableEq

def BhavError.kind : BhavError → ExcKind
  | BhavError.valueError _ => ExcKind.valueError
  | BhavError.fileNotFoundError _ => ExcKind.fileNotFoundError
  | BhavError.runtimeError _ => ExcKind.runtimeError
  | BhavError.indexError _ => ExcKind.indexError

def BhavError.msg : BhavError → String
  | BhavError.valueError m => m
  | BhavError.fileNotFoundError m => m
  | BhavError.runtimeError m => m
  | BhavError.indexError m => m

/-- The `except` clauses of `get_bhavcopy` (lines 232-238): how a raised
try-block exception is translated for the caller. -/
def bhavcopyHandle (bhavcopy_type : String) : TryExc → BhavError
  | TryExc.requestException m =>
    BhavError.fileNotFoundError
      ("Failed to download " ++ bhavcopy_type ++ " bhavcopy: " ++ m)
  | TryExc.badZipFile m => BhavError.runtimeError ("Invalid file received: " ++ m)
  | TryExc.badGzipFile m => BhavError.runtimeError ("Invalid file received: " ++ m)
  | TryExc.osError m => BhavError.runtimeError ("File operation failed: " ++ m)

structure BhavRun where
  outcome : Except BhavError String
  netCalls : Nat
  fs : List String
  deriving Repr

/-- `get_bhavcopy` (lines 118-238).  `net url` is the combined
`session.get(url, cookies=_fetch_cookies())` + `raise_for_status()` step
(its `.error` is the raised `requests.RequestException`); `netCalls`
counts how many times that network step ran.  File paths are
`download_dir ++ "/" ++ name`. -/
def get_bhavcopy (bhavcopy_type : String) (d : PyDate) (download_dir : String)
    (net : String → Except String Payload) (fs0 : List String) : BhavRun :=
  match bhavcopy_url bhavcopy_type d with
  | Except.error m => ⟨Except.error (BhavError.valueError m), 0, fs0⟩
  | Except.ok url =>
    match net url with
    | Except.error m =>
      ⟨Except.error (bhavcopyHandle bhavcopy_type (TryExc.requestException m)), 1, fs0⟩
    | Except.ok payload =>
      let file_name := bhavcopy_type ++ "_bhavcopy_" ++ fmtYYYYMMDD d
      if bhavcopy_type = "equity" ∨ bhavcopy_type = "fno" ∨ bhavcopy_type = "pr" then
        let zip_path := download_dir ++ "/" ++ file_name ++ ".zip"
        let fs1 := fsWrite fs0 zip_path
        match payload with
        | Payload.zipData entries =>
          let fs2 := entries.foldl
            (fun fs e => fsWrite fs (download_dir ++ "/" ++ e)) fs1
          match entries with
          | [] => ⟨Except.error (BhavError.indexError "list index out of range"), 1, fs2⟩
          | e :: _ =>
            let extracted_file_path := download_dir ++ "/" ++ e
            let new_file_path := download_dir ++ "/" ++ file_name ++ ".csv"
            let renamed :=
              if extracted_file_path ≠ new_file_path then
                fsRename fs2 extracted_file_path new_file_path
              else Except.ok fs2
            match renamed with
            | Except.error m =>
              ⟨Except.error (bhavcopyHandle bhavcopy_type (TryExc.osError m)), 1, fs2⟩
            | Except.ok fs3 =>
              match fsRemove fs3 zip_path with
              | Except.error m =>
                ⟨Except.error (bhavcopyHandle bhavcopy_type (TryExc.osError m)), 1, fs3⟩
              | Except.ok fs4 => ⟨Except.ok new_file_path, 1, fs4⟩
        | _ =>
          ⟨Except.error (bhavcopyHandle bhavcopy_type
            (TryExc.badZipFile "File is not a zip file")), 1, fs1⟩
      else if bhavcopy_type = "cm_mii" then
        let gz_path := download_dir ++ "/" ++ file_name ++ ".gz"
        let fs1 := fsWrite fs0 gz_path
        let csv_path := download_dir ++ "/" ++ file_name ++ ".csv"
        match payload with
        | Payload.gzData =>
          let fs2 := fsWrite fs1 csv_path
          match fsRemove fs2 gz_path with
          | Except.error m =>
            ⟨Except.error (bhavcopyHandle bhavcopy_type (TryExc.osError m)), 1, fs2⟩
          | Except.ok fs3 => ⟨Except.ok csv_path, 1, fs3⟩
        | _ =>
          ⟨Except.error (bhavcopyHandle bhavcopy_type
            (TryExc.badGzipFile "Not a gzipped file")), 1, fsWrite fs1 csv_path⟩
      else
        let csv_path := download_dir ++ "/" ++ file_name ++ ".csv"
        ⟨Except.ok csv_path, 1, fsWrite fs0 csv_path⟩

/-! ## Chunked historical queries (lines 1140-1223 and 1313-1403)

The per-chunk loop bodies of `get_historical_equity_data` and
`get_historical_index_data`: one outcome per chunk, in ascending chunk
order.  `fetchError` is an exception from `fetch_data_from_nse` (caught,
logged and skipped by `continue`); `noData` is a response that is falsy or
lacks the `"data"` key (also contributes nothing, without an exception). -/

inductive ChunkOutcome (α : Type)
  | fetchError (m : String)
  | noData
  | withData (records : List α)
  deriving Repr, DecidableEq

/-- The chunk loop and merge of `get_historical_equity_data`
(lines 1375-1403): each successful chunk's records are appended reversed
(`list(reversed(response["data"]))`); an empty merged result raises. -/
def get_historical_equity_data_chunks (symbol : String)
    (outcomes : List (ChunkOutcome α)) : Except String (List α) :=
  let all_data := outcomes.foldl
    (fun all_data o =>
      match o with
      | ChunkOutcome.withData records => all_data ++ records.reverse
      | _ => all_data) []
  if all_data.isEmpty then
    Except.error ("No historical data found for symbol: " ++ symbol)
  else Except.ok all_data

/-- A chunk outcome of `get_historical_index_data`: a successful response
carries the `indexCloseOnlineRecords` and `indexTurnoverRecords` lists (a
missing key behaves as the empty list: nothing is extended). -/
inductive IndexChunkOutcome (α : Type)
  | fetchError (m : String)
  | noData
  | withData (price turnover : List α)
  deriving Repr, DecidableEq

/-- The chunk loop and merge of `get_historical_index_data`
(lines 1191-1223): records are extended in origin order (no reversal);
the call raises only when both merged lists are empty. -/
def get_historical_index_data_chunks (index : String)
    (outcomes : List (IndexChunkOutcome α)) : Except String (List α × List α) :=
  let merged := outcomes.foldl
    (fun (acc : List α × List α) o =>
      match o with
      | IndexChunkOutcome.withData price turnover => (acc.1 ++ price, acc.2 ++ turnover)
      | _ => acc) ([], [])
  if merged.1.isEmpty && merged.2.isEmpty then
    Except.error ("No historical data found for index: " ++ index)
  else Except.ok merged

/-! ## Lemmas about the fetch loop -/

theorem fetchFrom_all_fail (transport : Nat → Except ε α) (e : Nat → ε)
    (h : ∀ n, transport n = Except.error (e n)) :
    ∀ remaining attempt : Nat, 1 ≤ remaining →
      fetchFrom transport remaining attempt =
        ⟨remaining, remaining - 1, Except.error (e (attempt + remaining - 1))⟩ := by
  intro remaining
  induction remaining with
  | zero => intro attempt h1; omega
  | succ r ih =>
    intro attempt _
    simp only [fetchFrom, h attempt]
    rcases Nat.eq_zero_or_pos r with hr | hr
    · subst hr
      simp
    · rw [if_neg (by omega), ih (attempt + 1) hr]
      have h1 : attempt + 1 + r - 1 = attempt + (r + 1) - 1 := by omega
      have h2 : r - 1 + 1 = r + 1 - 1 := by omega
      rw [h1, h2]

theorem fetchFrom_ok_at (transport : Nat → Except ε α) (j : α) :
    ∀ (k remaining attempt : Nat), k < remaining →
      (∀ i, i < k → ∃ er, transport (attempt + i) = Except.error er) →
      transport (attempt + k) = Except.ok j →
      fetchFrom transport remaining attempt = ⟨k + 1, k, Except.ok (some j)⟩ := by
  intro k
  induction k with
  | zero =>
    intro remaining attempt hk _ hok
    match remaining, hk with
    | r + 1, _ =>
      simp only [fetchFrom]
      rw [show attempt + 0 = attempt from rfl] at hok
      rw [hok]
  | succ k ih =>
    intro remaining attempt hk herr hok
    match remaining, hk with
    | r + 1, hk =>
      obtain ⟨er, her⟩ := herr 0 (Nat.succ_pos k)
      rw [show attempt + 0 = attempt from rfl] at her
      simp only [fetchFrom, her]
      have hr : k < r := Nat.lt_of_succ_lt_succ hk
      rw [if_neg (by omega)]
      have hrest := ih r (attempt + 1) hr
        (fun i hi => by
          obtain ⟨er2, h2⟩ := herr (i + 1) (Nat.succ_lt_succ hi)
          refine ⟨er2, ?_⟩
          rw [show attempt + 1 + i = attempt + (i + 1) from by omega]
          exact h2)
        (by rw [show attempt + 1 + k = attempt + (k + 1) from by omega]; exact hok)
      rw [hrest]

/-- C3: with an always-failing transport and `retries = 3`,
`fetch_data_from_nse` makes exactly 3 attempts, sleeps exactly 2 times
(between consecutive attempts, never after the last) and re-raises the
final attempt's error unchanged, as the very same error value. -/
theorem fetch_three_failures_trace (transport : Nat → Except ε α) (e : Nat → ε)
    (h : ∀ n, transport n = Except.error (e n)) :
    fetch_data_from_nse transport 3 = ⟨3, 2, Except.error (e 2)⟩ := by
  have := fetchFrom_all_fail transport e h 3 0 (by omega)
  simpa [fetch_data_from_nse] using this

theorem fetch_three_failures_trace_check :
    fetch_data_from_nse (fun _ => (Except.error "Connection aborted" : Except String Nat)) 3 =
      ⟨3, 2, Except.error "Connection aborted"⟩ :=
  fetch_three_failures_trace _ (fun _ => "Connection aborted") (fun _ => rfl)

/-- C5: if the transport fails on every attempt before index `k` and
returns a 2xx JSON payload at attempt `k < retries`, the client returns
exactly that payload after `k + 1` attempts and `k` sleeps — it stops
immediately on success, issuing no further attempt.  The claim's scenario
is `k = 2`, `retries = 3`. -/
theorem fetch_success_returns_immediately (transport : Nat → Except ε α) (e : Nat → ε)
    (j : α) (k retries : Nat) (hk : k < retries)
    (he : ∀ i, i < k → transport i = Except.error (e i))
    (hj : transport k = Except.ok j) :
    fetch_data_from_nse transport retries = ⟨k + 1, k, Except.ok (some j)⟩ := by
  have := fetchFrom_ok_at transport j k retries 0 hk
    (fun i hi => ⟨e i, by simpa using he i hi⟩) (by simpa using hj)
  simpa [fetch_data_from_nse] using this

theorem fetch_success_returns_immediately_check :
    fetch_data_from_nse
        (fun n => if n < 2 then (Except.error "timeout" : Except String Nat)
                  else Except.ok 7) 3 =
      ⟨3, 2, Except.ok (some 7)⟩ :=
  fetch_success_returns_immediately _ (fun _ => "timeout") 7 2 3 (by decide)
    (fun i hi => by simp [hi]) (by simp)

/-- C9: with `retries = 0` the loop body of `fetch_data_from_nse` never
runs: no attempt is issued, no sleep happens, no error is raised, and the
function falls through and returns `None`. -/
theorem fetch_zero_retries (transport : Nat → Except ε α) :
    fetch_data_from_nse transport 0 = ⟨0, 0, Except.ok none⟩ := rfl

/-! ## Lemmas about strings and the filesystem model -/

theorem string_head_of_append (p m : String) (c : Char) (hp : p.data.head? = some c) :
    (p ++ m).data.head? = some c := by
  rw [String.data_append, List.head?_append, hp]
  rfl

theorem string_append_left_cancel {a b c : String} (h : a ++ b = a ++ c) : b = c := by
  have hd : a.data ++ b.data = a.data ++ c.data := by
    rw [← String.data_append, ← String.data_append, h]
  have h2 := List.append_cancel_left hd
  cases b; cases c
  simp only at h2
  exact congrArg String.mk h2

theorem mem_fsWrite_iff (fs : List String) (p q : String) :
    q ∈ fsWrite fs p ↔ q ∈ fs ∨ q = p := by
  unfold fsWrite
  split
  · constructor
    · exact Or.inl
    · rintro (hq | rfl) <;> assumption
  · simp

theorem mem_fsErase_iff (fs : List String) (p q : String) :
    q ∈ fsErase fs p ↔ q ∈ fs ∧ q ≠ p := by
  simp [fsErase, List.mem_filter]

/-- C8: for `bhavcopy_type = "equity"` the source URL is selected by a
year threshold: dates with `year >= 2024` use the `BhavCopy_NSE_CM`
naming template, earlier dates use the legacy `cm{DDMonYYYY}bhav`
template. -/
theorem equity_url_year_threshold (d : PyDate) :
    (2024 ≤ d.year → bhavcopy_url "equity" d = Except.ok (equityUrlPost2024 d)) ∧
    (d.year < 2024 → bhavcopy_url "equity" d = Except.ok (equityUrlLegacy d)) := by
  have hb : bhavcopy_url "equity" d =
      if d.year ≥ 2024 then Except.ok (equityUrlPost2024 d)
      else Except.ok (equityUrlLegacy d) := rfl
  constructor
  · intro h
    rw [hb, if_pos h]
  · intro h
    rw [hb, if_neg (by omega)]

theorem equity_url_year_threshold_check :
    bhavcopy_url "equity" ⟨2024, 1, 1⟩ = Except.ok (equityUrlPost2024 ⟨2024, 1, 1⟩) ∧
    bhavcopy_url "equity" ⟨2023, 1, 1⟩ = Except.ok (equityUrlLegacy ⟨2023, 1, 1⟩) :=
  ⟨(equity_url_year_threshold ⟨2024, 1, 1⟩).1 (by decide),
   (equity_url_year_threshold ⟨2023, 1, 1⟩).2 (by decide)⟩

/-- C6: an unknown `bhavcopy_type` makes `get_bhavcopy` raise the
`ValueError` `"Invalid bhavcopy_type: ..."` with zero network requests
issued, for every date, directory, transport and initial filesystem. -/
theorem bhavcopy_unknown_type_no_net (bhavcopy_type : String) (d : PyDate)
    (download_dir : String) (net : String → Except String Payload) (fs0 : List String)
    (h : bhavcopy_type ∉
      ["equity", "delivery", "indices", "fno", "priceband", "pr", "cm_mii"]) :
    get_bhavcopy bhavcopy_type d download_dir net fs0 =
      ⟨Except.error (BhavError.valueError ("Invalid bhavcopy_type: " ++ bhavcopy_type)),
        0, fs0⟩ := by
  simp only [List.mem_cons, List.not_mem_nil, or_false, not_or] at h
  obtain ⟨h1, h2, h3, h4, h5, h6, h7⟩ := h
  rw [get_bhavcopy, bhavcopy_url]
  rw [if_neg h1, if_neg h2, if_neg h3, if_neg h4, if_neg h5, if_neg h6, if_neg h7]

theorem bhavcopy_unknown_type_no_net_check :
    get_bhavcopy "bogus" ⟨2024, 1, 1⟩ "d" (fun _ => Except.ok Payload.otherBytes) [] =
      ⟨Except.error (BhavError.valueError "Invalid bhavcopy_type: bogus"), 0, []⟩ :=
  bhavcopy_unknown_type_no_net "bogus" ⟨2024, 1, 1⟩ "d" _ [] (by decide)

/-- C1 counterexample: the claim says the three failure kinds of
`get_bhavcopy` are raised with pairwise distinct error kinds, but an
extraction failure (corrupt archive bytes) and a filesystem failure (the
temp `.zip` missing at `os.remove` after the inner entry overwrote it)
both surface as `RuntimeError` — the same exception class. -/
theorem bhavcopy_error_kinds_collide :
    (get_bhavcopy "fno" ⟨2024, 1, 1⟩ "d" (fun _ => Except.ok Payload.otherBytes) []).outcome
        = Except.error (BhavError.runtimeError "Invalid file received: File is not a zip file") ∧
    (get_bhavcopy "fno" ⟨2024, 1, 1⟩ "d"
        (fun _ => Except.ok (Payload.zipData ["fno_bhavcopy_20240101.zip"])) []).outcome
        = Except.error (BhavError.runtimeError
            "File operation failed: No such file or directory: d/fno_bhavcopy_20240101.zip") ∧
    (BhavError.runtimeError "Invalid file received: File is not a zip file").kind =
      (BhavError.runtimeError
        "File operation failed: No such file or directory: d/fno_bhavcopy_20240101.zip").kind :=
  ⟨rfl, rfl, rfl⟩

/-- C1 (amended): the three failure kinds of `get_bhavcopy` remain
pairwise distinguishable as full error values: a download failure raises
`FileNotFoundError`, whose kind differs from the other two; corrupt
archives and filesystem failures both raise `RuntimeError` — the same
kind — and are told apart only by their message prefixes
(`"Invalid file received: "` vs `"File operation failed: "`). -/
theorem bhavcopy_error_taxonomy (bhavcopy_type m1 m2 m3 m4 : String) :
    (bhavcopyHandle bhavcopy_type (TryExc.requestException m1)).kind
        = ExcKind.fileNotFoundError ∧
    (bhavcopyHandle bhavcopy_type (TryExc.badZipFile m2)).kind = ExcKind.runtimeError ∧
    (bhavcopyHandle bhavcopy_type (TryExc.badGzipFile m3)).kind = ExcKind.runtimeError ∧
    (bhavcopyHandle bhavcopy_type (TryExc.osError m4)).kind = ExcKind.runtimeError ∧
    bhavcopyHandle bhavcopy_type (TryExc.requestException m1)
        ≠ bhavcopyHandle bhavcopy_type (TryExc.badZipFile m2) ∧
    bhavcopyHandle bhavcopy_type (TryExc.requestException m1)
        ≠ bhavcopyHandle bhavcopy_type (TryExc.osError m4) ∧
    bhavcopyHandle bhavcopy_type (TryExc.badZipFile m2)
        ≠ bhavcopyHandle bhavcopy_type (TryExc.osError m4) ∧
    bhavcopyHandle bhavcopy_type (TryExc.badGzipFile m3)
        ≠ bhavcopyHandle bhavcopy_type (TryExc.osError m4) := by
  refine ⟨rfl, rfl, rfl, rfl, by simp [bhavcopyHandle], by simp [bhavcopyHandle], ?_, ?_⟩
  · intro h
    simp only [bhavcopyHandle, BhavError.runtimeError.injEq] at h
    have h2 : ("Invalid file received: " ++ m2).data.head?
        = ("File operation failed: " ++ m4).data.head? := by rw [h]
    rw [string_head_of_append _ _ 'I' (by decide),
      string_head_of_append _ _ 'F' (by decide)] at h2
    exact absurd (Option.some.inj h2) (by decide)
  · intro h
    simp only [bhavcopyHandle, BhavError.runtimeError.injEq] at h
    have h2 : ("Invalid file received: " ++ m3).data.head?
        = ("File operation failed: " ++ m4).data.head? := by rw [h]
    rw [string_head_of_append _ _ 'I' (by decide),
      string_head_of_append _ _ 'F' (by decide)] at h2
    exact absurd (Option.some.inj h2) (by decide)

/-- C7 counterexample: a ZIP payload with exactly one inner file need not
produce the normalized CSV: when the inner entry is named exactly like the
temp `.zip` (`equity_bhavcopy_20240101.zip`), extraction overwrites the
temp file, the rename moves it away, and the final `os.remove` of the
temp `.zip` raises, so the call fails instead of returning the path. -/
theorem bhavcopy_zip_single_inner_cex :
    (get_bhavcopy "equity" ⟨2024, 1, 1⟩ "d"
        (fun _ => Except.ok (Payload.zipData ["equity_bhavcopy_20240101.zip"])) []).outcome
      = Except.error (BhavError.runtimeError
          "File operation failed: No such file or directory: d/equity_bhavcopy_20240101.zip") ∧
    (get_bhavcopy "equity" ⟨2024, 1, 1⟩ "d"
        (fun _ => Except.ok (Payload.zipData ["equity_bhavcopy_20240101.zip"])) []).outcome
      ≠ Except.ok "d/equity_bhavcopy_20240101.csv" := by
  refine ⟨rfl, ?_⟩
  intro h
  rw [show (get_bhavcopy "equity" ⟨2024, 1, 1⟩ "d"
      (fun _ => Except.ok (Payload.zipData ["equity_bhavcopy_20240101.zip"])) []).outcome
      = Except.error (BhavError.runtimeError
        "File operation failed: No such file or directory: d/equity_bhavcopy_20240101.zip")
    from rfl] at h
  exact Except.noConfusion h

/-- C7 (amended): for a zip-kind report whose downloaded ZIP payload
contains exactly one inner file — provided the inner file is not named
exactly like the intermediate `.zip` temp file — `get_bhavcopy` extracts
it, renames it to `{report_type}_bhavcopy_{YYYYMMDD}.csv` in the target
directory, returns that path, and the intermediate `.zip` no longer
exists afterward. -/
theorem bhavcopy_zip_single_inner (bhavcopy_type : String) (d : PyDate)
    (download_dir : String) (net : String → Except String Payload) (fs0 : List String)
    (url inner : String)
    (hb : bhavcopy_type = "equity" ∨ bhavcopy_type = "fno" ∨ bhavcopy_type = "pr")
    (hurl : bhavcopy_url bhavcopy_type d = Except.ok url)
    (hnet : net url = Except.ok (Payload.zipData [inner]))
    (hname : inner ≠ bhavcopy_type ++ "_bhavcopy_" ++ fmtYYYYMMDD d ++ ".zip") :
    (get_bhavcopy bhavcopy_type d download_dir net fs0).outcome =
      Except.ok (download_dir ++ "/" ++ (bhavcopy_type ++ "_bhavcopy_" ++ fmtYYYYMMDD d)
        ++ ".csv") ∧
    (download_dir ++ "/" ++ (bhavcopy_type ++ "_bhavcopy_" ++ fmtYYYYMMDD d) ++ ".csv")
      ∈ (get_bhavcopy bhavcopy_type d download_dir net fs0).fs ∧
    (download_dir ++ "/" ++ (bhavcopy_type ++ "_bhavcopy_" ++ fmtYYYYMMDD d) ++ ".zip")
      ∉ (get_bhavcopy bhavcopy_type d download_dir net fs0).fs := by
  have hez : download_dir ++ "/" ++ inner
      ≠ download_dir ++ "/" ++ (bhavcopy_type ++ "_bhavcopy_" ++ fmtYYYYMMDD d) ++ ".zip" := by
    intro h
    simp only [String.append_assoc] at h hname
    exact hname (string_append_left_cancel (string_append_left_cancel h))
  have hcz : download_dir ++ "/" ++ (bhavcopy_type ++ "_bhavcopy_" ++ fmtYYYYMMDD d) ++ ".csv"
      ≠ download_dir ++ "/" ++ (bhavcopy_type ++ "_bhavcopy_" ++ fmtYYYYMMDD d) ++ ".zip" := by
    intro h
    simp only [String.append_assoc] at h
    have h2 := string_append_left_cancel (string_append_left_cancel
      (string_append_left_cancel (string_append_left_cancel (string_append_left_cancel h))))
    exact absurd h2 (by decide)
  simp only [get_bhavcopy, hurl, hnet, if_pos hb, List.foldl]
  by_cases heq : download_dir ++ "/" ++ inner
      = download_dir ++ "/" ++ (bhavcopy_type ++ "_bhavcopy_" ++ fmtYYYYMMDD d) ++ ".csv"
  · rw [if_neg (not_not_intro heq)]
    dsimp only
    have hzin : download_dir ++ "/" ++ (bhavcopy_type ++ "_bhavcopy_" ++ fmtYYYYMMDD d) ++ ".zip"
        ∈ fsWrite (fsWrite fs0 (download_dir ++ "/"
          ++ (bhavcopy_type ++ "_bhavcopy_" ++ fmtYYYYMMDD d) ++ ".zip"))
          (download_dir ++ "/" ++ inner) :=
      (mem_fsWrite_iff _ _ _).mpr (Or.inl ((mem_fsWrite_iff _ _ _).mpr (Or.inr rfl)))
    rw [fsRemove, if_pos hzin]
    dsimp only
    refine ⟨rfl, ?_, ?_⟩
    · rw [mem_fsErase_iff]
      exact ⟨(mem_fsWrite_iff _ _ _).mpr (Or.inr heq.symm), hcz⟩
    · rw [mem_fsErase_iff]
      simp
  · rw [if_pos heq]
    have hein : download_dir ++ "/" ++ inner
        ∈ fsWrite (fsWrite fs0 (download_dir ++ "/"
          ++ (bhavcopy_type ++ "_bhavcopy_" ++ fmtYYYYMMDD d) ++ ".zip"))
          (download_dir ++ "/" ++ inner) :=
      (mem_fsWrite_iff _ _ _).mpr (Or.inr rfl)
    rw [fsRename, if_pos hein]
    dsimp only
    have hzin3 : download_dir ++ "/" ++ (bhavcopy_type ++ "_bhavcopy_" ++ fmtYYYYMMDD d) ++ ".zip"
        ∈ fsWrite (fsErase (fsWrite (fsWrite fs0 (download_dir ++ "/"
            ++ (bhavcopy_type ++ "_bhavcopy_" ++ fmtYYYYMMDD d) ++ ".zip"))
            (download_dir ++ "/" ++ inner)) (download_dir ++ "/" ++ inner))
          (download_dir ++ "/" ++ (bhavcopy_type ++ "_bhavcopy_" ++ fmtYYYYMMDD d) ++ ".csv") := by
      rw [mem_fsWrite_iff, mem_fsErase_iff, mem_fsWrite_iff, mem_fsWrite_iff]
      exact Or.inl ⟨Or.inl (Or.inr rfl), fun h => hez h.symm⟩
    rw [fsRemove, if_pos hzin3]
    dsimp only
    refine ⟨rfl, ?_, ?_⟩
    · rw [mem_fsErase_iff, mem_fsWrite_iff]
      exact ⟨Or.inr rfl, hcz⟩
    · rw [mem_fsErase_iff]
      simp

theorem bhavcopy_zip_single_inner_check :
    (get_bhavcopy "equity" ⟨2024, 1, 1⟩ "d"
        (fun _ => Except.ok (Payload.zipData ["inner.csv"])) []).outcome
      = Except.ok ("d" ++ "/" ++ ("equity" ++ "_bhavcopy_" ++ fmtYYYYMMDD ⟨2024, 1, 1⟩)
          ++ ".csv") ∧
    ("d" ++ "/" ++ ("equity" ++ "_bhavcopy_" ++ fmtYYYYMMDD ⟨2024, 1, 1⟩) ++ ".csv")
      ∈ (get_bhavcopy "equity" ⟨2024, 1, 1⟩ "d"
          (fun _ => Except.ok (Payload.zipData ["inner.csv"])) []).fs ∧
    ("d" ++ "/" ++ ("equity" ++ "_bhavcopy_" ++ fmtYYYYMMDD ⟨2024, 1, 1⟩) ++ ".zip")
      ∉ (get_bhavcopy "equity" ⟨2024, 1, 1⟩ "d"
          (fun _ => Except.ok (Payload.zipData ["inner.csv"])) []).fs :=
  bhavcopy_zip_single_inner "equity" ⟨2024, 1, 1⟩ "d" _ [] _ "inner.csv"
    (Or.inl rfl) rfl rfl (by decide)

/-! ## Lemmas about the chunk merges -/

/-- The per-chunk contribution of `get_historical_equity_data`: a
successful chunk contributes its records reversed, anything else
contributes nothing. -/
def equityContribution : ChunkOutcome α → List α
  | ChunkOutcome.withData records => records.reverse
  | _ => []

/-- The per-chunk price contribution of `get_historical_index_data`
(origin order, no reversal). -/
def indexPriceContribution : IndexChunkOutcome α → List α
  | IndexChunkOutcome.withData price _ => price
  | _ => []

/-- The per-chunk turnover contribution of `get_historical_index_data`. -/
def indexTurnoverContribution : IndexChunkOutcome α → List α
  | IndexChunkOutcome.withData _ turnover => turnover
  | _ => []

theorem equity_fold_eq_flatten (outcomes : List (ChunkOutcome α)) :
    ∀ acc : List α,
      outcomes.foldl
        (fun all_data o =>
          match o with
          | ChunkOutcome.withData records => all_data ++ records.reverse
          | _ => all_data) acc
        = acc ++ (outcomes.map equityContribution).flatten := by
  induction outcomes with
  | nil => intro acc; simp
  | cons o rest ih =>
    intro acc
    cases o <;> simp [List.foldl, ih, equityContribution, List.append_assoc]

theorem index_fold_eq_flatten (outcomes : List (IndexChunkOutcome α)) :
    ∀ acc : List α × List α,
      outcomes.foldl
        (fun (acc : List α × List α) o =>
          match o with
          | IndexChunkOutcome.withData price turnover =>
            (acc.1 ++ price, acc.2 ++ turnover)
          | _ => acc) acc
        = (acc.1 ++ (outcomes.map indexPriceContribution).flatten,
           acc.2 ++ (outcomes.map indexTurnoverContribution).flatten) := by
  induction outcomes with
  | nil => intro acc; simp
  | cons o rest ih =>
    intro acc
    cases o <;>
      simp [List.foldl, ih, indexPriceContribution, indexTurnoverContribution,
        List.append_assoc]

/-- C4 counterexample: the claim says the chunked historical queries
return each successful chunk's records reversed to chronological order,
but `get_historical_index_data` extends the merged lists in origin order:
a single successful chunk with price records `[0, 1]` comes back as
`[0, 1]`, not the claimed reversal `[1, 0]`. -/
theorem historical_index_no_reversal_cex :
    get_historical_index_data_chunks "NIFTY 50"
        [IndexChunkOutcome.withData ([0, 1] : List Nat) []]
      = Except.ok ([0, 1], []) ∧
    (Except.ok (([0, 1] : List Nat), ([] : List Nat)) :
        Except String (List Nat × List Nat))
      ≠ Except.ok ([1, 0], []) := by
  refine ⟨rfl, fun h => ?_⟩
  have h2 : (([0, 1] : List Nat), ([] : List Nat)) = ([1, 0], []) := Except.ok.inj h
  have h3 : ([0, 1] : List Nat) = [1, 0] := congrArg Prod.fst h2
  exact absurd h3 (by decide)

/-- C4 (amended): per-chunk fetch failures are skipped, never aborting
the query.  `get_historical_equity_data` returns the concatenation, in
ascending chunk order, of each successful chunk's records reversed;
`get_historical_index_data` returns the concatenation in origin order
(no within-chunk reversal).  When every chunk contributes no records the
call raises "no data found" instead of returning an empty result (for the
index query: when both merged lists are empty). -/
theorem historical_chunk_merge (symbol index : String)
    (outcomes : List (ChunkOutcome α)) (ioutcomes : List (IndexChunkOutcome β)) :
    (get_historical_equity_data_chunks symbol outcomes =
      if ((outcomes.map equityContribution).flatten).isEmpty then
        Except.error ("No historical data found for symbol: " ++ symbol)
      else Except.ok (outcomes.map equityContribution).flatten) ∧
    (get_historical_index_data_chunks index ioutcomes =
      if ((ioutcomes.map indexPriceContribution).flatten).isEmpty
          && ((ioutcomes.map indexTurnoverContribution).flatten).isEmpty then
        Except.error ("No historical data found for index: " ++ index)
      else Except.ok ((ioutcomes.map indexPriceContribution).flatten,
        (ioutcomes.map indexTurnoverContribution).flatten)) := by
  constructor
  · rw [get_historical_equity_data_chunks, equity_fold_eq_flatten outcomes []]
    rfl
  · rw [get_historical_index_data_chunks, index_fold_eq_flatten ioutcomes ([], [])]
    rfl

/-! ## Lemmas about the date-range chunker -/

theorem splitLoop_append (t mcs : Int) :
    ∀ (fuel : Nat) (cs : Int) (acc : List (Int × Int)),
      splitLoop t mcs fuel cs acc =
        (splitLoop t mcs fuel cs []).map (fun l => acc ++ l) := by
  intro fuel
  induction fuel with
  | zero => intro cs acc; rfl
  | succ fuel ih =>
    intro cs acc
    simp only [splitLoop]
    split
    · rw [ih _ (acc ++ [(cs, _)]), ih _ ([] ++ [(cs, _)])]
      cases splitLoop t mcs fuel _ [] <;> simp
    · simp

theorem splitLoop_step (t mcs : Int) (fuel : Nat) (cs : Int)
    (chunks : List (Int × Int)) (h : cs ≤ t) :
    splitLoop t mcs (fuel + 1) cs chunks =
      splitLoop t mcs fuel ((if cs + (mcs - 1) > t then t else cs + (mcs - 1)) + 1)
        (chunks ++ [(cs, if cs + (mcs - 1) > t then t else cs + (mcs - 1))]) := by
  simp only [splitLoop, if_pos h]

theorem splitLoop_stop (t mcs : Int) (fuel : Nat) (cs : Int)
    (chunks : List (Int × Int)) (h : ¬ cs ≤ t) :
    splitLoop t mcs (fuel + 1) cs chunks = some chunks := by
  simp only [splitLoop, if_neg h]

theorem chain_contig_head_lt :
    ∀ (l : List (Int × Int)) (b : Int),
      List.Chain' (fun p q : Int × Int => q.1 = p.2 + 1) l →
      (∀ p ∈ l, p.1 ≤ p.2) →
      (∀ q, l.head? = some q → b < q.1) →
      ∀ p ∈ l, b < p.1 := by
  intro l
  induction l with
  | nil => intro b _ _ _ p hp; cases hp
  | cons q rest ih =>
    intro b hchain hb hhead p hp
    have hbq : b < q.1 := hhead q rfl
    rcases List.mem_cons.mp hp with rfl | hp2
    · exact hbq
    · have hcc := List.chain'_cons'.mp hchain
      have hq2 : q.2 < p.1 := by
        refine ih q.2 hcc.2 (fun r hr => hb r (List.mem_cons_of_mem q hr)) ?_ p hp2
        intro r hr
        have := hcc.1 r (Option.mem_def.mpr hr)
        omega
      have hq12 : q.1 ≤ q.2 := hb q (List.mem_cons_self q rest)
      omega

theorem chain_contig_pairwise :
    ∀ l : List (Int × Int),
      List.Chain' (fun p q : Int × Int => q.1 = p.2 + 1) l →
      (∀ p ∈ l, p.1 ≤ p.2) →
      l.Pairwise (fun p q : Int × Int => p.2 < q.1) := by
  intro l
  induction l with
  | nil => intro _ _; exact List.Pairwise.nil
  | cons q rest ih =>
    intro hchain hb
    have hcc := List.chain'_cons'.mp hchain
    refine List.pairwise_cons.mpr
      ⟨?_, ih hcc.2 (fun p hp => hb p (List.mem_cons_of_mem q hp))⟩
    intro p hp
    exact chain_contig_head_lt rest q.2 hcc.2
      (fun r hr => hb r (List.mem_cons_of_mem q hr))
      (fun r hr => by have := hcc.1 r (Option.mem_def.mpr hr); omega) p hp

theorem splitLoop_sound (t mcs : Int) (hm : 1 ≤ mcs) :
    ∀ (n : Nat) (cs : Int), cs ≤ t → (t - cs).toNat ≤ n →
      ∃ l : List (Int × Int),
        splitLoop t mcs (n + 2) cs [] = some l ∧
        l.head?.map Prod.fst = some cs ∧
        l.getLast?.map Prod.snd = some t ∧
        (∀ p ∈ l, p.1 ≤ p.2 ∧ p.2 - p.1 + 1 ≤ mcs) ∧
        List.Chain' (fun p q : Int × Int => q.1 = p.2 + 1) l ∧
        l.length = (t - cs).toNat / mcs.toNat + 1 ∧
        (∀ x : Int, (cs ≤ x ∧ x ≤ t) ↔ ∃ p ∈ l, p.1 ≤ x ∧ x ≤ p.2) := by
  intro n
  induction n using Nat.strong_induction_on with
  | _ n ih =>
    intro cs hcs hn
    by_cases hfin : t ≤ cs + (mcs - 1)
    · -- the final chunk is clamped to to_date: the loop appends (cs, t) and stops
      have hce : (if cs + (mcs - 1) > t then t else cs + (mcs - 1)) = t := by
        split <;> omega
      refine ⟨[(cs, t)], ?_, rfl, rfl, ?_, List.chain'_singleton _, ?_, ?_⟩
      · rw [show n + 2 = n + 1 + 1 from rfl, splitLoop_step t mcs (n + 1) cs [] hcs, hce,
          splitLoop_stop t mcs n (t + 1) _ (by omega)]
        rfl
      · intro p hp
        rcases List.mem_cons.mp hp with rfl | hp2
        · constructor
          · exact hcs
          · omega
        · cases hp2
      · have : (t - cs).toNat / mcs.toNat = 0 := Nat.div_eq_of_lt (by omega)
        simp [this]
      · intro x
        simp only [List.mem_cons, List.not_mem_nil, or_false]
        constructor
        · rintro ⟨hx1, hx2⟩
          exact ⟨(cs, t), rfl, hx1, hx2⟩
        · rintro ⟨p, rfl, hpx1, hpx2⟩
          exact ⟨hpx1, hpx2⟩
    · -- a full chunk (cs, cs + mcs - 1) is appended and the loop continues
      have hce : (if cs + (mcs - 1) > t then t else cs + (mcs - 1)) = cs + (mcs - 1) := by
        split <;> omega
      have hn1 : 1 ≤ n := by omega
      obtain ⟨l', hl', hhead', hlast', hbounds', hchain', hlen', hunion'⟩ :=
        ih (n - 1) (by omega) (cs + (mcs - 1) + 1) (by omega) (by omega)
      rw [show n - 1 + 2 = n + 1 from by omega] at hl'
      refine ⟨(cs, cs + (mcs - 1)) :: l', ?_, rfl, ?_, ?_, ?_, ?_, ?_⟩
      · rw [show n + 2 = n + 1 + 1 from rfl, splitLoop_step t mcs (n + 1) cs [] hcs, hce,
          splitLoop_append t mcs (n + 1) (cs + (mcs - 1) + 1) ([] ++ [(cs, cs + (mcs - 1))]),
          hl']
        simp
      · cases hlp : l'.getLast? with
        | none => rw [hlp] at hlast'; simp at hlast'
        | some p =>
          rw [show ((cs, cs + (mcs - 1)) :: l') = [(cs, cs + (mcs - 1))] ++ l' from rfl,
            List.getLast?_append, hlp]
          rw [hlp] at hlast'
          simpa using hlast'
      · intro p hp
        rcases List.mem_cons.mp hp with rfl | hp2
        · exact ⟨by omega, by omega⟩
        · exact hbounds' p hp2
      · refine List.chain'_cons'.mpr ⟨?_, hchain'⟩
        intro y hy
        have hy2 := congrArg (Option.map Prod.fst) (Option.mem_def.mp hy)
        rw [hhead'] at hy2
        have : y.1 = cs + (mcs - 1) + 1 := (Option.some.inj hy2).symm
        omega
      · have hmn : (0 : Nat) < mcs.toNat := by omega
        have hsplit : (t - cs).toNat = (t - (cs + (mcs - 1) + 1)).toNat + mcs.toNat := by
          omega
        rw [List.length_cons, hlen', hsplit, Nat.add_div_right _ hmn]
      · intro x
        constructor
        · rintro ⟨hx1, hx2⟩
          by_cases hxe : x ≤ cs + (mcs - 1)
          · exact ⟨(cs, cs + (mcs - 1)), List.mem_cons_self _ _, hx1, hxe⟩
          · obtain ⟨p, hp, hpx⟩ := (hunion' x).mp ⟨by omega, hx2⟩
            exact ⟨p, List.mem_cons_of_mem _ hp, hpx⟩
        · rintro ⟨p, hp, hpx1, hpx2⟩
          rcases List.mem_cons.mp hp with rfl | hp2
          · exact ⟨hpx1, by omega⟩
          · have := (hunion' x).mpr ⟨p, hp2, hpx1, hpx2⟩
            exact ⟨by omega, this.2⟩

/-- The set of days covered by a list of inclusive chunks. -/
def intervalUnion : List (Int × Int) → Finset Int
  | [] => ∅
  | p :: rest => Finset.Icc p.1 p.2 ∪ intervalUnion rest

theorem mem_intervalUnion (l : List (Int × Int)) (x : Int) :
    x ∈ intervalUnion l ↔ ∃ p ∈ l, p.1 ≤ x ∧ x ≤ p.2 := by
  induction l with
  | nil => simp [intervalUnion]
  | cons p rest ih => simp [intervalUnion, Finset.mem_union, Finset.mem_Icc, ih]

theorem intervalUnion_card_le (mcs : Int) :
    ∀ l : List (Int × Int), (∀ p ∈ l, p.2 - p.1 + 1 ≤ mcs) →
      (intervalUnion l).card ≤ l.length * mcs.toNat := by
  intro l
  induction l with
  | nil => intro _; simp [intervalUnion]
  | cons p rest ih =>
    intro hb
    have hcard := Finset.card_union_le (Finset.Icc p.1 p.2) (intervalUnion rest)
    have h1 : (Finset.Icc p.1 p.2).card = (p.2 + 1 - p.1).toNat := Int.card_Icc _ _
    have h2 := hb p (List.mem_cons_self p rest)
    have h3 := ih (fun q hq => hb q (List.mem_cons_of_mem _ hq))
    have h4 : (p :: rest).length * mcs.toNat = rest.length * mcs.toNat + mcs.toNat := by
      rw [List.length_cons, Nat.succ_mul]
    calc (intervalUnion (p :: rest)).card
        ≤ (Finset.Icc p.1 p.2).card + (intervalUnion rest).card := hcard
      _ ≤ (p :: rest).length * mcs.toNat := by omega

/-- Any list of chunks each spanning at most `mcs` days that covers
`[f, t]` has at least `(t - f).toNat / mcs.toNat + 1` chunks. -/
theorem split_min_length (f t mcs : Int) (hm : 1 ≤ mcs) (hft : f ≤ t)
    (lp : List (Int × Int)) (hspan : ∀ p ∈ lp, p.2 - p.1 + 1 ≤ mcs)
    (hcov : ∀ x : Int, f ≤ x → x ≤ t → ∃ p ∈ lp, p.1 ≤ x ∧ x ≤ p.2) :
    (t - f).toNat / mcs.toNat + 1 ≤ lp.length := by
  have hsub : Finset.Icc f t ⊆ intervalUnion lp := by
    intro x hx
    rw [Finset.mem_Icc] at hx
    exact (mem_intervalUnion lp x).mpr (hcov x hx.1 hx.2)
  have h1 : (Finset.Icc f t).card ≤ (intervalUnion lp).card := Finset.card_le_card hsub
  have h2 := intervalUnion_card_le mcs lp hspan
  rw [Int.card_Icc] at h1
  have hmn : (0 : Nat) < mcs.toNat := by omega
  have h3 : (t - f).toNat < lp.length * mcs.toNat := by omega
  have h4 := (Nat.div_lt_iff_lt_mul hmn).mpr h3
  omega

/-- C2: for `from_date <= to_date` and `max_chunk_size >= 1`,
`_split_date_range` terminates and returns chunks that start at
`from_date`, end at `to_date`, are contiguous (each chunk starts the day
after the previous chunk's end), ascending and non-overlapping, whose
union is exactly `[from_date, to_date]`, each spanning at most
`max_chunk_size` days — and no covering list of chunks each spanning at
most `max_chunk_size` days can be shorter. -/
theorem split_date_range_correct (from_date to_date max_chunk_size : Int)
    (hft : from_date ≤ to_date) (hm : 1 ≤ max_chunk_size) :
    ∃ l : List (Int × Int),
      _split_date_range from_date to_date max_chunk_size = Except.ok (some l) ∧
      l.head?.map Prod.fst = some from_date ∧
      l.getLast?.map Prod.snd = some to_date ∧
      List.Chain' (fun p q : Int × Int => q.1 = p.2 + 1) l ∧
      l.Pairwise (fun p q : Int × Int => p.2 < q.1) ∧
      (∀ p ∈ l, p.1 ≤ p.2 ∧ p.2 - p.1 + 1 ≤ max_chunk_size) ∧
      (∀ x : Int, (from_date ≤ x ∧ x ≤ to_date) ↔ ∃ p ∈ l, p.1 ≤ x ∧ x ≤ p.2) ∧
      (∀ lp : List (Int × Int),
        (∀ p ∈ lp, p.2 - p.1 + 1 ≤ max_chunk_size) →
        (∀ x : Int, from_date ≤ x → x ≤ to_date → ∃ p ∈ lp, p.1 ≤ x ∧ x ≤ p.2) →
        l.length ≤ lp.length) := by
  obtain ⟨l, hl, hhead, hlast, hbounds, hchain, hlen, hunion⟩ :=
    splitLoop_sound to_date max_chunk_size hm ((to_date - from_date).toNat)
      from_date hft le_rfl
  refine ⟨l, ?_, hhead, hlast, hchain, ?_, hbounds, hunion, ?_⟩
  · rw [_split_date_range, if_neg (by omega), hl]
  · exact chain_contig_pairwise l hchain (fun p hp => (hbounds p hp).1)
  · intro lp hspan hcov
    rw [hlen]
    exact split_min_length from_date to_date max_chunk_size hm hft lp hspan hcov

theorem split_date_range_correct_check :
    ∃ l : List (Int × Int),
      _split_date_range 0 5 2 = Except.ok (some l) ∧
      l.head?.map Prod.fst = some 0 ∧
      l.getLast?.map Prod.snd = some 5 ∧
      List.Chain' (fun p q : Int × Int => q.1 = p.2 + 1) l ∧
      l.Pairwise (fun p q : Int × Int => p.2 < q.1) ∧
      (∀ p ∈ l, p.1 ≤ p.2 ∧ p.2 - p.1 + 1 ≤ 2) ∧
      (∀ x : Int, (0 ≤ x ∧ x ≤ 5) ↔ ∃ p ∈ l, p.1 ≤ x ∧ x ≤ p.2) ∧
      (∀ lp : List (Int × Int),
        (∀ p ∈ lp, p.2 - p.1 + 1 ≤ 2) →
        (∀ x : Int, 0 ≤ x → x ≤ 5 → ∃ p ∈ lp, p.1 ≤ x ∧ x ≤ p.2) →
        l.length ≤ lp.length) :=
  split_date_range_correct 0 5 2 (by decide) (by decide)

/-- C10: `_split_date_range` terminates for every `from_date <= to_date`
as long as `max_chunk_size >= 1` (each iteration advances
`current_start` by at least one day, bounded by `to_date`); the function
never validates `max_chunk_size`, and the precondition is required: at
`max_chunk_size = 0` (with `from_date = to_date = 0`) the loop runs
forever — it exhausts every fuel bound. -/
theorem split_date_range_terminates :
    (∀ f t mcs : Int, f ≤ t → 1 ≤ mcs →
      ∃ l : List (Int × Int), _split_date_range f t mcs = Except.ok (some l)) ∧
    (∀ fuel : Nat, ∀ acc : List (Int × Int), splitLoop 0 0 fuel 0 acc = none) := by
  constructor
  · intro f t mcs hft hm
    obtain ⟨l, hl, -, -, -, -, -, -⟩ :=
      splitLoop_sound t mcs hm ((t - f).toNat) f hft le_rfl
    refine ⟨l, ?_⟩
    rw [_split_date_range, if_neg (by omega), hl]
  · intro fuel
    induction fuel with
    | zero => intro acc; rfl
    | succ fuel ih =>
      intro acc
      rw [splitLoop_step 0 0 fuel 0 acc le_rfl]
      have hc : ¬((0 : Int) + (0 - 1) > 0) := by norm_num
      simp only [if_neg hc]
      norm_num
      exact ih _

theorem split_date_range_terminates_check :
    (∃ l : List (Int × Int), _split_date_range 1 6 2 = Except.ok (some l)) ∧
    splitLoop 0 0 9 0 [] = none :=
  ⟨split_date_range_terminates.1 1 6 2 (by decide) (by decide),
   split_date_range_terminates.2 9 []⟩

end NseApi
